import Mathlib

/-!
# Verification of the annotator audio/event engine

The repository's visible code is the React client (`frontend/src/**`,
`src/unnamed/part_*`) plus infrastructure scripts; the backend data engine
(collection registry, ingestion pipeline, waveform aggregator, raw slice
extractor, collection resolver, event store) is consumed by the client over
HTTP but its implementation is not part of the visible sources.  Where a
claim is decided by that engine, the definitions below are modelled from the
specification's words (each such definition's doc comment starts with
`Modelled from the spec:`).  Where a claim is decided by client code that is
present (chart-click selection, the live-capture panel, the time utilities),
the definitions are translated from that source.

Timestamps are modelled as rationals (`ℚ`), an exact embedding of instants
measured in seconds; amplitudes are integers.
-/

namespace Annotator

/-- Modelled from the spec: error taxonomy of §7 — `NotFound`, `InvalidRange`,
`MalformedAudio`, `IncompatibleFormat`, `InvalidTransition`, `EmptyResult`. -/
inductive EngineError where
  | NotFound
  | InvalidRange
  | MalformedAudio
  | IncompatibleFormat
  | InvalidTransition
  | EmptyResult
deriving DecidableEq, Repr

/-- Modelled from the spec: event status values `manual`, `reviewed`,
`refined` (§3 Data model, Event). -/
inductive EventStatus where
  | manual
  | reviewed
  | refined
deriving DecidableEq, Repr

/-- Modelled from the spec: the enumerated direction values of an event
(§3: N/A, East→West, West→East, North→South, South→North). -/
inductive Direction where
  | NA
  | eastWest
  | westEast
  | northSouth
  | southNorth
deriving DecidableEq, Repr

/-- Modelled from the spec: annotation event record (§3 Data model). -/
structure Event where
  id : Nat
  startTime : ℚ
  endTime : ℚ
  vehicleType : String
  vehicleIdentifier : String
  direction : Direction
  notes : String
  status : EventStatus
deriving DecidableEq, Repr

/-- Modelled from the spec: collection registry entry — name, sample rate,
channel count and covered time range (§3 Data model, Collection). -/
structure Collection where
  name : String
  sampleRate : Nat
  channelCount : Nat
  startTime : ℚ
  endTime : ℚ
deriving DecidableEq, Repr

/-- Modelled from the spec: a sample is a timestamped vector of per-channel
amplitude values keyed by (collection, timestamp) (§3 Data model, Sample). -/
structure Sample where
  coll : String
  time : ℚ
  channels : List Int
deriving DecidableEq, Repr

/-- Modelled from the spec: the engine's persisted state — registry (in
registration order, most recent last), sample store, event store and the
server-generated id counter. -/
structure EngineState where
  registry : List Collection
  samples : List Sample
  events : List Event
  nextId : Nat
deriving DecidableEq, Repr

/-- The engine state before any ingestion or event creation. -/
def emptyState : EngineState := ⟨[], [], [], 0⟩

/-- Registry lookup by collection name (first entry with the name; names are
unique in the registry, which upserts by name). -/
def findColl (st : EngineState) (name : String) : Option Collection :=
  st.registry.find? (fun c => c.name = name)

/-! ## Event store (§4.6) -/

/-- Modelled from the spec: payload of `create(event)` — status defaults to
`manual` unless the caller specifies `refined` (§4.6). -/
structure EventPayload where
  startTime : ℚ
  endTime : ℚ
  vehicleType : String
  vehicleIdentifier : String
  direction : Direction
  notes : String
  status : Option EventStatus
deriving DecidableEq, Repr

/-- Modelled from the spec: `create(event)` — a server-generated id is
assigned and the stored status is exactly the requested one (default
`manual`); no other event is touched (§4.6). -/
def createEvent (st : EngineState) (p : EventPayload) : EngineState × Event :=
  let e : Event :=
    { id := st.nextId
      startTime := p.startTime
      endTime := p.endTime
      vehicleType := p.vehicleType
      vehicleIdentifier := p.vehicleIdentifier
      direction := p.direction
      notes := p.notes
      status := p.status.getD .manual }
  ({ st with events := st.events ++ [e], nextId := st.nextId + 1 }, e)

/-- Modelled from the spec: `setStatus(id, newStatus)` — the only allowed
transition is manual → reviewed, triggered explicitly; every other requested
transition fails with `InvalidTransition`; an unknown id fails with
`NotFound` (§4.6). -/
def setStatus (st : EngineState) (id : Nat) (tgt : EventStatus) :
    Except EngineError EngineState :=
  match st.events.find? (fun e => e.id = id) with
  | none => .error .NotFound
  | some e =>
      if e.status = .manual ∧ tgt = .reviewed then
        .ok { st with
              events := st.events.map
                (fun x => if x.id = id then { x with status := tgt } else x) }
      else
        .error .InvalidTransition

/-- Whether an event passes the optional status filter of `list`. -/
def matchesFilter (f : Option EventStatus) (e : Event) : Bool :=
  match f with
  | none => true
  | some s => e.status = s

/-- Modelled from the spec: `list(filter: status?)` — the events matching the
filter, ordered by start timestamp descending (newest first) by default
(§4.6). -/
def listEvents (st : EngineState) (f : Option EventStatus) : List Event :=
  List.insertionSort (fun a b => b.startTime ≤ a.startTime)
    (st.events.filter (matchesFilter f))

/-! ## Collection resolver (§4.5) -/

/-- Whether a registered collection's [start, end] range contains `t`. -/
def collContains (c : Collection) (t : ℚ) : Bool :=
  c.startTime ≤ t ∧ t ≤ c.endTime

/-- Modelled from the spec: `resolve(timestamp)` — the name of the collection
whose registered [start, end] range contains the timestamp, or no match if
none does; when several ranges contain it the tie-break is deterministic,
preferring the most recently registered collection, i.e. the last matching
entry in registration order (§4.5). -/
def resolve (st : EngineState) (t : ℚ) : Option String :=
  ((st.registry.filter (fun c => collContains c t)).getLast?).map (fun c => c.name)

/-! ## Waveform aggregator (§4.3) -/

/-- One output tuple of `aggregate`: bucket start time and the min/max
amplitude over the bucket's window. -/
structure AggBucket where
  bucketStart : ℚ
  min : Int
  max : Int
deriving DecidableEq, Repr

/-- All per-channel amplitude values of `coll`'s samples whose timestamp
falls in the half-open window [lo, hi). -/
def ampsInWindow (st : EngineState) (coll : String) (lo hi : ℚ) : List Int :=
  (st.samples.filter
    (fun s => s.coll = coll ∧ lo ≤ s.time ∧ s.time < hi)).flatMap
    (fun s => s.channels)

/-- Min/max of an amplitude list, with the spec's zero-fill for an empty
bucket: min = max = 0 (§4.3). -/
def bucketAgg (amps : List Int) : Int × Int :=
  match amps.min?, amps.max? with
  | some mn, some mx => (mn, mx)
  | _, _ => (0, 0)

/-- The i-th output bucket of `aggregate` over [s, e) with width `w`. -/
def mkBucket (st : EngineState) (coll : String) (s w : ℚ) (i : Nat) : AggBucket :=
  let lo := s + i * w
  let (mn, mx) := bucketAgg (ampsInWindow st coll lo (lo + w))
  ⟨lo, mn, mx⟩

/-- Modelled from the spec: `aggregate(collection, start, end, point_count)`
(§4.3).  `end ≤ start` or `point_count ≤ 0` fails with `InvalidRange`; an
unknown collection fails with `NotFound`; if the entire query range lies
outside the collection's registered range the result is the empty-data
result (the client interprets this as "no data"); otherwise exactly
`point_count` buckets of width (end − start) / point_count are produced,
with min/max over the samples of each half-open window and zero-fill for
windows holding no samples. -/
def aggregate (st : EngineState) (coll : String) (s e : ℚ) (n : Nat) :
    Except EngineError (List AggBucket) :=
  if e ≤ s ∨ n = 0 then .error .InvalidRange
  else
    match findColl st coll with
    | none => .error .NotFound
    | some c =>
        if e ≤ c.startTime ∨ c.endTime ≤ s then .ok []
        else
          let w := (e - s) / n
          .ok ((List.range n).map (mkBucket st coll s w))

/-! ## Raw slice extractor (§4.4) -/

/-- A self-contained audio container: header fields reconstructed from the
collection's metadata, data built from the in-range samples' frames. -/
structure AudioSlice where
  sampleRate : Nat
  channelCount : Nat
  frames : List (List Int)
deriving DecidableEq, Repr

/-- Modelled from the spec: `extract(collection, start, end)` (§4.4) — fails
with `InvalidRange` if end ≤ start, with `NotFound` for an unknown
collection, and with `EmptyResult` if no samples fall in [start, end);
otherwise returns a container with the collection's header metadata and the
in-range frames. -/
def extract (st : EngineState) (coll : String) (s e : ℚ) :
    Except EngineError AudioSlice :=
  if e ≤ s then .error .InvalidRange
  else
    match findColl st coll with
    | none => .error .NotFound
    | some c =>
        let inRange := st.samples.filter
          (fun x => x.coll = coll ∧ s ≤ x.time ∧ x.time < e)
        if inRange.isEmpty then .error .EmptyResult
        else .ok ⟨c.sampleRate, c.channelCount, inRange.map (fun x => x.channels)⟩

/-! ## Ingestion pipeline (§4.1) -/

/-- Modelled from the spec: a parsed WAV container — header fields for sample
rate, channel count, bit depth, and the decoded frames (one amplitude per
channel per frame) (§4.1 step 1). -/
structure WavFile where
  filename : String
  sampleRate : Nat
  channelCount : Nat
  bitDepth : Nat
  frames : List (List Int)
deriving DecidableEq, Repr

/-- Modelled from the spec: header consistency check of §4.1 step 1 — zero
sample rate, unsupported bit depth, or a truncated data chunk (a frame not
holding one value per channel) makes the file `MalformedAudio`. -/
def headerOk (f : WavFile) : Bool :=
  f.sampleRate ≠ 0 ∧
  (f.bitDepth = 8 ∨ f.bitDepth = 16 ∨ f.bitDepth = 24 ∨ f.bitDepth = 32) ∧
  f.frames.all (fun fr => fr.length = f.channelCount)

/-- Whether a stored sample has the given (collection, timestamp) key. -/
def keyMatches (coll : String) (t : ℚ) (x : Sample) : Bool :=
  x.coll = coll ∧ x.time = t

/-- Modelled from the spec: writing one frame into the sample store — the
store is keyed by (collection, timestamp), and the documented re-ingestion
policy is last-write-wins per key, so a write at an existing key replaces
the stored value in place and never duplicates the key (§4.1). -/
def writeFrame (samples : List Sample) (s : Sample) : List Sample :=
  if samples.any (keyMatches s.coll s.time) then
    samples.map (fun x => if keyMatches s.coll s.time x then s else x)
  else samples ++ [s]

/-- Modelled from the spec: the samples of one file — frame `i` is timestamped
start + i / sample_rate (§4.1 step 3). -/
def fileSamples (coll : String) (start : ℚ) (rate : Nat) :
    Nat → List (List Int) → List Sample
  | _, [] => []
  | i, fr :: rest =>
      ⟨coll, start + (i : ℚ) / (rate : ℚ), fr⟩ ::
        fileSamples coll start rate (i + 1) rest

/-- Modelled from the spec: ingesting one file into a collection (§4.1) —
the header is checked (`MalformedAudio`), the registry entry is created with
this file's [start, start + duration] and format, or, if the collection
exists, the file's sample rate and channel count must match
(`IncompatibleFormat`) and the registered range is extended to the union of
the old and new ranges; all of the file's frames are committed atomically
with the registry update (all-or-nothing per file, §4.1 side effects). -/
def ingestFile (st : EngineState) (coll : String) (fileStart : ℚ)
    (f : WavFile) : Except EngineError EngineState :=
  if ¬ headerOk f then .error .MalformedAudio
  else
    let fileEnd := fileStart + (f.frames.length : ℚ) / (f.sampleRate : ℚ)
    let newSamples := fileSamples coll fileStart f.sampleRate 0 f.frames
    match findColl st coll with
    | none =>
        .ok { st with
              registry := st.registry ++
                [⟨coll, f.sampleRate, f.channelCount, fileStart, fileEnd⟩]
              samples := newSamples.foldl writeFrame st.samples }
    | some c =>
        if f.sampleRate = c.sampleRate ∧ f.channelCount = c.channelCount then
          .ok { st with
                registry := st.registry.map
                  (fun x => if x.name = coll then
                    { x with startTime := min x.startTime fileStart
                             endTime := max x.endTime fileEnd }
                   else x)
                samples := newSamples.foldl writeFrame st.samples }
        else .error .IncompatibleFormat

/-- One ingestion request: target collection, the file's externally supplied
start instant (§4.1 step 2), and the parsed file. -/
structure IngestReq where
  coll : String
  fileStart : ℚ
  file : WavFile
deriving DecidableEq, Repr

/-- Applying one ingestion request; a failed ingestion leaves the state
unchanged (all-or-nothing per file). -/
def ingestStep (st : EngineState) (r : IngestReq) : EngineState :=
  match ingestFile st r.coll r.fileStart r.file with
  | .ok st' => st'
  | .error _ => st

/-- The engine state after a sequence of ingestion requests applied to the
empty initial state. -/
def runIngests (rs : List IngestReq) : EngineState :=
  rs.foldl ingestStep emptyState

/-- Modelled from the spec: outcome report of a multi-file batch — either
every file committed, or processing stopped at the first failing file,
identifying it by position and filename (§7: failures report which file
failed). -/
inductive BatchResult where
  | allOk
  | failed (index : Nat) (filename : String) (err : EngineError)
deriving DecidableEq, Repr

/-- Modelled from the spec: multi-file ingestion into one collection, files
processed in caller-supplied order; the first failure stops the batch,
leaving every earlier file committed and contributing nothing from the
failing file (§4.1 side effects, §7 propagation policy). -/
def ingestBatch (coll : String) : EngineState → List (ℚ × WavFile) →
    EngineState × BatchResult
  | st, [] => (st, .allOk)
  | st, (fs, f) :: rest =>
      match ingestFile st coll fs f with
      | .ok st' =>
          match ingestBatch coll st' rest with
          | (st'', .allOk) => (st'', .allOk)
          | (st'', .failed i n e) => (st'', .failed (i + 1) n e)
      | .error e => (st, .failed 0 f.filename e)

/-! ## Client: two-click chart selection

From `handleChartClick` in `src/unnamed/part_003` (lines 99–123) and
`src/unnamed/part_001` (lines 86–101): the first click stores the selection
start; the second click becomes the end, and if it precedes the stored start
the two endpoints are swapped before the range is committed.  Click instants
are modelled as milliseconds since the epoch. -/

/-- The committed (start, end) pair produced by the second chart click:
`if (finalEnd < finalStart) [finalStart, finalEnd] = [finalEnd, finalStart]`. -/
def chartClickFinalize (selStart clicked : Int) : Int × Int :=
  if clicked < selStart then (clicked, selStart) else (selStart, clicked)

/-! ## Client: live-capture panel (`ActionPanel.jsx`)

The panel's workflow state machine: READY —MARK START→ CAPTURING
—MARK END→ ANNOTATING —SAVE→ READY, with CANCEL resetting everything.
MARK START records the current wall-clock instant as the start, MARK END
records it as the end, and SAVE posts a payload built from the two recorded
instants (`handleStart`, `handleEnd`, `handleSave` in
`src/frontend/src/components/ActionPanel.jsx`). -/

inductive Workflow where
  | READY
  | CAPTURING
  | ANNOTATING
deriving DecidableEq, Repr

/-- Component state of the panel: workflow phase and the recorded start/end
instants (ms since epoch). -/
structure PanelState where
  workflow : Workflow
  startTime : Option Int
  endTime : Option Int
deriving DecidableEq, Repr

/-- User interactions with the panel; `markStart`/`markEnd` carry the
wall-clock instant `new Date()` read by the handler. -/
inductive PanelAction where
  | markStart (now : Int)
  | markEnd (now : Int)
  | cancel
  | save (vehicleType : String)
deriving DecidableEq, Repr

/-- The (start_timestamp, end_timestamp) pair of an event-creation request
posted by `handleSave`. -/
structure CapturePayload where
  startTime : Int
  endTime : Int
deriving DecidableEq, Repr

/-- Initial panel state (`WORKFLOW_STATE.READY`, no recorded times). -/
def panelInit : PanelState := ⟨.READY, none, none⟩

/-- One step of the panel: buttons are only rendered in the phase that
enables them (MARK START in READY, MARK END in CAPTURING, SAVE/CANCEL in
ANNOTATING), so an action in any other phase is a no-op; SAVE with an empty
vehicle type is rejected by the guard in `handleSave` and posts nothing. -/
def panelStep (st : PanelState) (a : PanelAction) :
    PanelState × Option CapturePayload :=
  match a, st.workflow with
  | .markStart now, .READY => (⟨.CAPTURING, some now, st.endTime⟩, none)
  | .markEnd now, .CAPTURING => (⟨.ANNOTATING, st.startTime, some now⟩, none)
  | .cancel, _ => (panelInit, none)
  | .save vt, .ANNOTATING =>
      if vt = "" then (st, none)
      else
        match st.startTime, st.endTime with
        | some s, some e => (panelInit, some ⟨s, e⟩)
        | _, _ => (st, none)
  | _, _ => (st, none)

/-- Running a sequence of panel actions, collecting every posted payload. -/
def panelRun : PanelState → List PanelAction → PanelState × List CapturePayload
  | st, [] => (st, [])
  | st, a :: rest =>
      let (st', p) := panelStep st a
      let (stF, ps) := panelRun st' rest
      (stF, p.toList ++ ps)

/-- The wall-clock instant an action reads, if it reads one. -/
def actionTime (a : PanelAction) : Option Int :=
  match a with
  | .markStart now => some now
  | .markEnd now => some now
  | _ => none

/-- The wall clock is non-decreasing across the action sequence, starting
from lower bound `c`. -/
def timesMonotone : Int → List PanelAction → Prop
  | _, [] => True
  | c, a :: rest =>
      match actionTime a with
      | none => timesMonotone c rest
      | some t => c ≤ t ∧ timesMonotone t rest

/-- Panel invariant relative to the last observed clock value `c`: while
capturing, the recorded start is no later than the clock; while annotating,
both instants are recorded and ordered. -/
def panelInv (c : Int) (st : PanelState) : Prop :=
  (st.workflow = .CAPTURING → ∃ s, st.startTime = some s ∧ s ≤ c) ∧
  (st.workflow = .ANNOTATING →
    ∃ s e, st.startTime = some s ∧ st.endTime = some e ∧ s ≤ e)

/-! ## Client: time utilities (`src/unnamed/part_010`, `frontend/src/utils/time.js`)

Strings exchanged by the utilities are modelled symbolically as lists of the
characters the ISO timestamp format uses: decimal digits, `-`, `:`, the `T`
separator and the `Z` suffix.  A JavaScript `Date` is modelled by its UTC
calendar components (the only view of it the source reads, via the `getUTC*`
getters); an invalid Date (`isNaN(date)`) or absent value is `Option.none`. -/

inductive ISOChar where
  | digit (d : Fin 10)
  | dash
  | colon
  | tsep
  | zmark
deriving DecidableEq, Repr

/-- The decimal digit character of `n`'s last digit. -/
def digitOf (n : Nat) : ISOChar :=
  .digit ⟨n % 10, Nat.mod_lt _ (by omega)⟩

/-- A JavaScript `Date` viewed through its UTC components (month is already
1-based here, absorbing the `getUTCMonth() + 1` of the source). -/
structure JSDate where
  year : Nat
  month : Nat
  day : Nat
  hour : Nat
  minute : Nat
  second : Nat
  ms : Nat
deriving DecidableEq, Repr

/-- Gregorian leap-year rule used by the UTC calendar. -/
def isLeap (y : Nat) : Bool :=
  y % 4 = 0 ∧ (y % 100 ≠ 0 ∨ y % 400 = 0)

/-- Days in a month of the UTC calendar. -/
def daysInMonth (y m : Nat) : Nat :=
  if m = 2 then (if isLeap y then 29 else 28)
  else if m = 4 ∨ m = 6 ∨ m = 9 ∨ m = 11 then 30
  else 31

/-- The component tuples that denote actual UTC instants (valid Dates). -/
def validDate (d : JSDate) : Bool :=
  1 ≤ d.year ∧ 1 ≤ d.month ∧ d.month ≤ 12 ∧
  1 ≤ d.day ∧ d.day ≤ daysInMonth d.year d.month ∧
  d.hour < 24 ∧ d.minute < 60 ∧ d.second < 60 ∧ d.ms < 1000

/-- Fuel-indexed decimal rendering (structural recursion on the fuel so the
definition evaluates by kernel reduction); `natDigits` supplies enough
fuel. -/
def natDigitsF : Nat → Nat → List ISOChar
  | 0, _ => []
  | fuel + 1, n =>
      if n < 10 then [digitOf n]
      else natDigitsF fuel (n / 10) ++ [digitOf n]

/-- Decimal rendering of a natural number, most significant digit first,
without padding — the model of JavaScript's `Number.prototype.toString`. -/
def natDigits (n : Nat) : List ISOChar := natDigitsF (n + 1) n

/-- `num.toString().padStart(2, '0')`: a single leading zero is added when
the rendering is one character, longer renderings pass through. -/
def pad2 (n : Nat) : List ISOChar :=
  if n < 10 then digitOf 0 :: natDigits n else natDigits n

/-- From `formatForInput` in `src/unnamed/part_010` lines 24–38: empty output
for an absent/invalid date, otherwise
`year + "-" + pad(month) + "-" + pad(day) + "T" + pad(hours) + ":" +
pad(minutes) + ":" + pad(seconds)` built exclusively from the `getUTC*`
components.  `tzOffsetMinutes` models the browser's local-timezone offset;
the source never consults it (it uses `getUTC*` methods exclusively), which
is exactly what the timezone-independence theorem states. -/
def formatForInput (_tzOffsetMinutes : Int) (d : Option JSDate) : List ISOChar :=
  match d with
  | none => []
  | some d =>
      natDigits d.year ++ [.dash] ++ pad2 d.month ++ [.dash] ++ pad2 d.day ++
      [.tsep] ++ pad2 d.hour ++ [.colon] ++ pad2 d.minute ++ [.colon] ++
      pad2 d.second

/-- Modelled from ECMA-262's Date Time String Format (the behaviour
`new Date(string)` is required to implement), restricted to the full
`YYYY-MM-DDTHH:mm:ssZ` shape the utilities exchange: exactly four year
digits, two digits per other field, and a literal `Z`.  Strings outside the
grammar (for instance a year that does not render as exactly four digits)
are not guaranteed parseable by the standard and are modelled as invalid. -/
def parseISOChars (cs : List ISOChar) : Option JSDate :=
  match cs with
  | [.digit y1, .digit y2, .digit y3, .digit y4, .dash,
     .digit m1, .digit m2, .dash, .digit d1, .digit d2, .tsep,
     .digit h1, .digit h2, .colon, .digit i1, .digit i2, .colon,
     .digit s1, .digit s2, .zmark] =>
      let dt : JSDate :=
        ⟨1000 * y1.val + 100 * y2.val + 10 * y3.val + y4.val,
         10 * m1.val + m2.val, 10 * d1.val + d2.val,
         10 * h1.val + h2.val, 10 * i1.val + i2.val,
         10 * s1.val + s2.val, 0⟩
      if validDate dt then some dt else none
  | _ => none

/-- From `parseISOString` in `src/unnamed/part_010` lines 10–14: a falsy
input (null/undefined/empty) gives null; otherwise `new Date(isoString)`,
and null if the result is an invalid Date. -/
def parseISOString (s : Option (List ISOChar)) : Option JSDate :=
  match s with
  | none => none
  | some cs => parseISOChars cs

/-! ## Helper lemmas -/

/-- `find?` commutes with a map that does not change which elements satisfy
the predicate. -/
theorem find?_map_of_pred_eq {α : Type} (p : α → Bool) (f : α → α)
    (hp : ∀ x, p (f x) = p x) :
    ∀ l : List α, (l.map f).find? p = (l.find? p).map f := by
  intro l
  induction l with
  | nil => rfl
  | cons x xs ih =>
      by_cases hx : p x = true
      · simp [List.find?, hp, hx]
      · simp only [Bool.not_eq_true] at hx
        simp [List.find?, hp, hx, ih]

/-- Concrete engine state used by the witnesses: the "demo" collection over
[0, 10] with three mono samples, plus one manual and one refined event. -/
def demoState : EngineState :=
  { registry := [⟨"demo", 8000, 1, 0, 10⟩]
    samples := [⟨"demo", 0, [3]⟩, ⟨"demo", 1, [-2]⟩, ⟨"demo", 2, [5]⟩]
    events := [⟨0, 4, 6, "car", "", .NA, "", .manual⟩,
               ⟨1, 7, 8, "truck", "", .NA, "", .refined⟩]
    nextId := 2 }

/-! ## C2 — event status state machine -/

/-- C2: for an event present in the store, `setStatus(id, reviewed)` succeeds
exactly when the event's current status is `manual`, and afterwards the event
is `reviewed` and every further `setStatus` on it fails with
`InvalidTransition`; every request other than manual → reviewed fails with
`InvalidTransition` (the failing call returns no new state, so the stored
status is unchanged); and event creation stores exactly the requested status
(default `manual`) while appending to the untouched existing events, so no
status is ever changed implicitly by creation. -/
theorem C2_setStatus_state_machine (st : EngineState) (id : Nat) (e : Event)
    (hfind : st.events.find? (fun x => x.id = id) = some e) :
    (e.status = .manual →
      ∃ st', setStatus st id .reviewed = .ok st' ∧
        st'.events.find? (fun x => x.id = id) =
          some { e with status := .reviewed } ∧
        ∀ tgt, setStatus st' id tgt = .error .InvalidTransition) ∧
    (∀ tgt, ¬(e.status = .manual ∧ tgt = .reviewed) →
      setStatus st id tgt = .error .InvalidTransition) ∧
    (∀ p, ((createEvent st p).2).status = p.status.getD .manual ∧
      ((createEvent st p).1).events = st.events ++ [(createEvent st p).2]) := by
  have hpe := List.find?_some hfind
  simp only [decide_eq_true_eq] at hpe
  refine ⟨?_, ?_, ?_⟩
  · intro hman
    refine ⟨{ st with events := st.events.map fun x => if x.id = id then { x with status := EventStatus.reviewed } else x }, ?_, ?_, ?_⟩
    · simp [setStatus, hfind, hman]
    · rw [find?_map_of_pred_eq _ _ (fun x => by by_cases h : x.id = id <;> simp [h])]
      simp [hfind, hpe]
    · intro tgt
      simp only [setStatus]
      rw [find?_map_of_pred_eq _ _ (fun x => by by_cases h : x.id = id <;> simp [h])]
      simp [hfind, hpe]
  · intro tgt hno
    simp [setStatus, hfind, hno]
  · intro p
    exact ⟨rfl, rfl⟩

/-- C2 witness: in the demo state, event 0 is `manual`, its review succeeds
and is then terminal, and a direct request reviewed → manual on it would be
an `InvalidTransition`. -/
theorem C2_witness :
    (∃ st', setStatus demoState 0 .reviewed = .ok st' ∧
      st'.events.find? (fun x => x.id = 0) =
        some { (⟨0, 4, 6, "car", "", .NA, "", .manual⟩ : Event) with
                status := .reviewed } ∧
      ∀ tgt, setStatus st' 0 tgt = .error .InvalidTransition) ∧
    setStatus demoState 1 .reviewed = .error .InvalidTransition := by
  refine ⟨(C2_setStatus_state_machine demoState 0
      ⟨0, 4, 6, "car", "", .NA, "", .manual⟩ (by decide)).1 rfl, ?_⟩
  exact (C2_setStatus_state_machine demoState 1
      ⟨1, 7, 8, "truck", "", .NA, "", .refined⟩ (by decide)).2.1 .reviewed
    (by decide)

/-! ## C3 — collection resolver -/

/-- Concrete registry with two collections whose ranges overlap at t = 5,
"b" registered after "a". -/
def overlapState : EngineState :=
  { registry := [⟨"a", 8000, 1, 0, 10⟩, ⟨"b", 8000, 1, 4, 20⟩]
    samples := []
    events := []
    nextId := 0 }

/-- C3: `resolve(t)` returns a collection name exactly when some registered
collection's [start, end] range contains `t`; when several ranges contain
`t` the result is the fixed deterministic tie-break — the most recently
registered matching collection, i.e. the last matching entry in
registration order; and being a pure function of the registry state,
repeated calls with the same state return the same name. -/
theorem C3_resolve_contains_tiebreak (st : EngineState) (t : ℚ) :
    ((resolve st t).isSome ↔ ∃ c ∈ st.registry, collContains c t) ∧
    (∀ (pre : List Collection) (c : Collection),
      st.registry.filter (fun x => collContains x t) = pre ++ [c] →
      resolve st t = some c.name) ∧
    resolve st t = resolve st t := by
  refine ⟨?_, ?_, rfl⟩
  · simp only [resolve, Option.isSome_map', List.getLast?_isSome]
    constructor
    · intro hne
      obtain ⟨c, hc⟩ := List.exists_mem_of_ne_nil _ hne
      exact ⟨c, (List.mem_filter.1 hc).1, (List.mem_filter.1 hc).2⟩
    · rintro ⟨c, hc, hcont⟩
      exact List.ne_nil_of_mem (List.mem_filter.2 ⟨hc, hcont⟩)
  · intro pre c hfilter
    simp [resolve, hfilter, List.getLast?_concat]

/-- C3 witness: at t = 5 both "a" and "b" contain the timestamp and the more
recently registered "b" wins; at t = 30 no collection matches. -/
theorem C3_witness :
    resolve overlapState 5 = some "b" ∧
    ((resolve overlapState 30).isSome ↔
      ∃ c ∈ overlapState.registry, collContains c 30) :=
  ⟨(C3_resolve_contains_tiebreak overlapState 5).2.1
      [⟨"a", 8000, 1, 0, 10⟩] ⟨"b", 8000, 1, 4, 20⟩ (by decide),
   (C3_resolve_contains_tiebreak overlapState 30).1⟩

/-! ## C8 — event listing: filter and descending order -/

/-- C8: `list(filter)` returns exactly the events matching the optional
status filter (as a permutation of the filtered store) and the result is
ordered by start timestamp descending (newest first). -/
theorem C8_list_filter_sorted (st : EngineState) (f : Option EventStatus) :
    List.Perm (listEvents st f) (st.events.filter (matchesFilter f)) ∧
    List.Sorted (fun a b : Event => b.startTime ≤ a.startTime)
      (listEvents st f) := by
  constructor
  · exact List.perm_insertionSort _ _
  · have htot : IsTotal Event (fun a b : Event => b.startTime ≤ a.startTime) :=
      ⟨fun a b => le_total b.startTime a.startTime⟩
    have htr : IsTrans Event (fun a b : Event => b.startTime ≤ a.startTime) :=
      ⟨fun _ _ _ hab hbc => le_trans hbc hab⟩
    exact List.sorted_insertionSort _ _

/-! ## C1 — waveform aggregation -/

/-- Folding `min` from a start below the start of a `max` fold stays below. -/
theorem foldl_min_le_foldl_max (l : List Int) :
    ∀ x y : Int, x ≤ y → l.foldl min x ≤ l.foldl max y := by
  induction l with
  | nil => intro x y h; simpa using h
  | cons a t ih =>
      intro x y h
      exact ih _ _ (le_trans (min_le_left x a)
        (le_trans h (le_max_left y a)))

/-- The min of a bucket never exceeds its max, zero-fill included. -/
theorem bucketAgg_min_le_max (amps : List Int) :
    (bucketAgg amps).1 ≤ (bucketAgg amps).2 := by
  cases amps with
  | nil => simp [bucketAgg, List.min?, List.max?]
  | cons a t =>
      simpa [bucketAgg, List.min?, List.max?] using
        foldl_min_le_foldl_max t a a le_rfl

/-- C1 (amended): on a registered collection, with end > start,
point_count > 0, and the query range intersecting the registered range,
`aggregate` returns exactly `point_count` buckets; bucket `i` starts at
start + i·bucket_width, satisfies min ≤ max, and a bucket whose window holds
no samples is emitted with min = max = 0 rather than omitted. -/
theorem C1_aggregate_buckets (st : EngineState) (coll : String) (s e : ℚ)
    (n : Nat) (c : Collection) (hs : s < e) (hn : 0 < n)
    (hc : findColl st coll = some c)
    (hint : ¬(e ≤ c.startTime ∨ c.endTime ≤ s)) :
    ∃ bs, aggregate st coll s e n = .ok bs ∧ bs.length = n ∧
      ∀ i (hi : i < bs.length),
        (bs.get ⟨i, hi⟩).bucketStart = s + i * ((e - s) / n) ∧
        (bs.get ⟨i, hi⟩).min ≤ (bs.get ⟨i, hi⟩).max ∧
        (ampsInWindow st coll (s + i * ((e - s) / n))
            (s + i * ((e - s) / n) + (e - s) / n) = [] →
          (bs.get ⟨i, hi⟩).min = 0 ∧ (bs.get ⟨i, hi⟩).max = 0) := by
  have hcond : ¬(e ≤ s ∨ n = 0) := by
    push_neg
    exact ⟨hs, Nat.pos_iff_ne_zero.1 hn⟩
  refine ⟨(List.range n).map (mkBucket st coll s ((e - s) / n)), ?_, by simp, ?_⟩
  · rw [aggregate, if_neg hcond, hc]
    simp [hint]
  · intro i hi
    have hmk : ((List.range n).map (mkBucket st coll s ((e - s) / n))).get ⟨i, hi⟩
        = mkBucket st coll s ((e - s) / n) i := by
      simp [List.get_eq_getElem]
    rw [hmk]
    refine ⟨rfl, ?_, ?_⟩
    · simpa [mkBucket] using bucketAgg_min_le_max
        (ampsInWindow st coll (s + i * ((e - s) / n))
          (s + i * ((e - s) / n) + (e - s) / n))
    · intro hempty
      simp [mkBucket, hempty, bucketAgg, List.min?, List.max?]

/-- C1 counterexample to the claim as stated: on the demo collection
(registered range [0, 10]) the call `aggregate("demo", 20, 25, 4)` has
end > start and point_count = 4 > 0, yet returns the empty-data result —
zero tuples, not 4 — because the entire query range lies outside the
registered range (§4.3's documented edge case, which the client handles by
checking for a zero-length response). -/
theorem C1_counterexample :
    aggregate demoState "demo" 20 25 4 = .ok [] := by rfl

/-- C1 witness: over the demo collection's own range, a 5-bucket query
returns exactly 5 buckets with ordered min/max and zero-filled empty
buckets. -/
theorem C1_witness :
    ∃ bs, aggregate demoState "demo" 0 10 5 = .ok bs ∧ bs.length = 5 ∧
      ∀ i (hi : i < bs.length),
        (bs.get ⟨i, hi⟩).bucketStart = 0 + i * ((10 - 0) / 5) ∧
        (bs.get ⟨i, hi⟩).min ≤ (bs.get ⟨i, hi⟩).max ∧
        (ampsInWindow demoState "demo" (0 + i * ((10 - 0) / 5))
            (0 + i * ((10 - 0) / 5) + (10 - 0) / 5) = [] →
          (bs.get ⟨i, hi⟩).min = 0 ∧ (bs.get ⟨i, hi⟩).max = 0) :=
  C1_aggregate_buckets demoState "demo" 0 10 5 ⟨"demo", 8000, 1, 0, 10⟩
    (by norm_num) (by norm_num) (by decide) (by decide)

/-! ## C4 — raw extraction error behaviour -/

/-- C4: on a registered collection, `extract` fails with `InvalidRange`
whenever end ≤ start; and whenever end > start but no sample of the
collection has a timestamp in [start, end) — in particular when the range
lies entirely outside the covered range — it fails with `EmptyResult`
rather than returning a zero-length container. -/
theorem C4_extract_errors (st : EngineState) (coll : String) (s e : ℚ)
    (c : Collection) (hc : findColl st coll = some c) :
    (e ≤ s → extract st coll s e = .error .InvalidRange) ∧
    (s < e → (∀ x ∈ st.samples, x.coll = coll → ¬(s ≤ x.time ∧ x.time < e)) →
      extract st coll s e = .error .EmptyResult) := by
  constructor
  · intro hle
    rw [extract, if_pos hle]
  · intro hlt hnone
    rw [extract, if_neg (not_le.2 hlt), hc]
    have hall : ∀ x ∈ st.samples, x.coll = coll → s ≤ x.time → e ≤ x.time := by
      intro x hx h1 h2
      by_contra hcon
      exact hnone x hx h1 ⟨h2, not_le.1 hcon⟩
    simp
    exact hall

/-- C4 witness: the spec's scenario — extracting [20, 25) from the demo
collection that only covers [0, 10] returns `EmptyResult`; extracting the
degenerate range [5, 5) returns `InvalidRange`. -/
theorem C4_witness :
    extract demoState "demo" 20 25 = .error .EmptyResult ∧
    extract demoState "demo" 5 5 = .error .InvalidRange :=
  ⟨(C4_extract_errors demoState "demo" 20 25 ⟨"demo", 8000, 1, 0, 10⟩
      (by decide)).2 (by norm_num) (by decide),
   (C4_extract_errors demoState "demo" 5 5 ⟨"demo", 8000, 1, 0, 10⟩
      (by decide)).1 le_rfl⟩

/-! ## Sample-store lemmas -/

/-- An element of the store after a frame write is an old element or the
written frame. -/
theorem mem_writeFrame {l : List Sample} {s x : Sample}
    (hx : x ∈ writeFrame l s) : x ∈ l ∨ x = s := by
  rw [writeFrame] at hx
  split at hx
  · obtain ⟨y, hy, hyx⟩ := List.mem_map.1 hx
    by_cases h : keyMatches s.coll s.time y
    · rw [if_pos h] at hyx
      exact Or.inr hyx.symm
    · rw [if_neg h] at hyx
      exact Or.inl (hyx ▸ hy)
  · rcases List.mem_append.1 hx with h | h
    · exact Or.inl h
    · exact Or.inr (List.mem_singleton.1 h)

/-- An element of the store after a sequence of frame writes is an old
element or one of the written frames. -/
theorem mem_foldl_writeFrame :
    ∀ (ss : List Sample) (l : List Sample) (x : Sample),
      x ∈ ss.foldl writeFrame l → x ∈ l ∨ x ∈ ss := by
  intro ss
  induction ss with
  | nil => exact fun l x hx => Or.inl hx
  | cons a t ih =>
      intro l x hx
      rw [List.foldl_cons] at hx
      rcases ih _ x hx with h | h
      · rcases mem_writeFrame h with h' | h'
        · exact Or.inl h'
        · exact Or.inr (by simp [h'])
      · exact Or.inr (List.mem_cons_of_mem _ h)

/-- The in-place update of `writeFrame` preserves each element's key. -/
theorem writeFrame_update_key (s y : Sample) :
    (if keyMatches s.coll s.time y then s else y).coll = y.coll ∧
    (if keyMatches s.coll s.time y then s else y).time = y.time := by
  by_cases h : keyMatches s.coll s.time y
  · rw [if_pos h]
    simp only [keyMatches, decide_eq_true_eq] at h
    exact ⟨h.1.symm, h.2.symm⟩
  · rw [if_neg h]
    exact ⟨rfl, rfl⟩

/-- No two stored samples share a (collection, timestamp) key. -/
def keysNodup (l : List Sample) : Prop :=
  l.Pairwise (fun a b => ¬(a.coll = b.coll ∧ a.time = b.time))

/-- Writing one frame preserves key uniqueness: an existing key is replaced
in place, a fresh key is appended. -/
theorem keysNodup_writeFrame {l : List Sample} (s : Sample)
    (h : keysNodup l) : keysNodup (writeFrame l s) := by
  rw [writeFrame]
  split
  · refine List.Pairwise.map _ ?_ h
    intro a b hab hcon
    apply hab
    have ha := writeFrame_update_key s a
    have hb := writeFrame_update_key s b
    rw [ha.1, hb.1, ha.2, hb.2] at hcon
    exact hcon
  · rename_i hany
    rw [keysNodup, List.pairwise_append]
    refine ⟨h, List.pairwise_singleton _ _, ?_⟩
    intro a ha b hb
    rw [List.mem_singleton] at hb
    subst hb
    intro hcon
    apply hany
    rw [List.any_eq_true]
    exact ⟨a, ha, by simp [keyMatches, hcon.1, hcon.2]⟩

/-- A sequence of frame writes preserves key uniqueness. -/
theorem keysNodup_foldl_writeFrame :
    ∀ (ss : List Sample) (l : List Sample), keysNodup l →
      keysNodup (ss.foldl writeFrame l) := by
  intro ss
  induction ss with
  | nil => exact fun l h => h
  | cons a t ih =>
      intro l h
      rw [List.foldl_cons]
      exact ih _ (keysNodup_writeFrame a h)

/-- Every sample of a file belongs to the target collection and carries the
timestamp start + frame_index / sample_rate. -/
theorem mem_fileSamples (coll : String) (start : ℚ) (rate : Nat) :
    ∀ (frames : List (List Int)) (i : Nat) (x : Sample),
      x ∈ fileSamples coll start rate i frames →
      x.coll = coll ∧ ∃ j, j < frames.length ∧
        x.time = start + ((i + j : Nat) : ℚ) / (rate : ℚ) := by
  intro frames
  induction frames with
  | nil =>
      intro i x hx
      simp [fileSamples] at hx
  | cons fr rest ih =>
      intro i x hx
      rw [fileSamples] at hx
      rcases List.mem_cons.1 hx with h | h
      · subst h
        exact ⟨rfl, 0, by simp, by norm_num⟩
      · obtain ⟨hc, j, hj, ht⟩ := ih (i + 1) x h
        refine ⟨hc, j + 1, by simpa using Nat.succ_lt_succ hj, ?_⟩
        rw [ht]
        have hnat : i + 1 + j = i + (j + 1) := by omega
        rw [hnat]

/-- Time bounds for the samples of one file ingested from `start`: every
timestamp lies in [start, start + frame_count / sample_rate]. -/
theorem fileSamples_time_bounds {coll : String} {start : ℚ} {rate : Nat}
    (hrate : rate ≠ 0) {frames : List (List Int)} {x : Sample}
    (hx : x ∈ fileSamples coll start rate 0 frames) :
    x.coll = coll ∧ start ≤ x.time ∧
      x.time ≤ start + (frames.length : ℚ) / (rate : ℚ) := by
  obtain ⟨hc, j, hj, ht⟩ := mem_fileSamples coll start rate frames 0 x hx
  have hr : (0 : ℚ) < (rate : ℚ) := by
    exact_mod_cast Nat.pos_of_ne_zero hrate
  refine ⟨hc, ?_, ?_⟩
  · rw [ht]
    have : (0 : ℚ) ≤ ((0 + j : Nat) : ℚ) / (rate : ℚ) := by positivity
    linarith
  · rw [ht]
    have hle : ((0 + j : Nat) : ℚ) ≤ (frames.length : ℚ) := by
      exact_mod_cast (by omega : 0 + j ≤ frames.length)
    have := (div_le_div_iff_of_pos_right hr).2 hle
    linarith

/-! ## C5 — ingested samples stay within the registered range -/

/-- Reachability invariant of ingestion: registry names are unique, and every
stored sample belongs to some registered collection whose range covers its
timestamp. -/
def engineInv (st : EngineState) : Prop :=
  (st.registry.map (fun c => c.name)).Nodup ∧
  ∀ x ∈ st.samples, ∃ c ∈ st.registry,
    x.coll = c.name ∧ c.startTime ≤ x.time ∧ x.time ≤ c.endTime

/-- A successful single-file ingestion preserves the reachability
invariant. -/
theorem ingestFile_preserves_engineInv {st st' : EngineState} {coll : String}
    {fs : ℚ} {f : WavFile} (hok : ingestFile st coll fs f = .ok st')
    (hinv : engineInv st) : engineInv st' := by
  rw [ingestFile] at hok
  split at hok
  · cases hok
  · rename_i hhdr
    have hh : headerOk f = true := by
      by_contra hcon
      exact hhdr (by simpa using hcon)
    have hrate : f.sampleRate ≠ 0 := by
      simp only [headerOk, Bool.and_eq_true, decide_eq_true_eq] at hh
      exact hh.1
    split at hok
    · rename_i hnone
      cases hok
      have hnames : ∀ y ∈ st.registry, y.name ≠ coll := by
        intro y hy
        have := List.find?_eq_none.1 hnone y hy
        simpa using this
      constructor
      · simp only [List.map_append, List.map_cons, List.map_nil]
        rw [List.nodup_append]
        refine ⟨hinv.1, List.nodup_singleton _, ?_⟩
        intro a ha hb
        rw [List.mem_singleton] at hb
        subst hb
        obtain ⟨y, hy, hyname⟩ := List.mem_map.1 ha
        exact hnames y hy hyname
      · intro x hx
        rcases mem_foldl_writeFrame _ _ _ hx with hold | hnew
        · obtain ⟨c, hc, h1, h2, h3⟩ := hinv.2 x hold
          exact ⟨c, List.mem_append_left _ hc, h1, h2, h3⟩
        · obtain ⟨h1, h2, h3⟩ := fileSamples_time_bounds hrate hnew
          refine ⟨⟨coll, f.sampleRate, f.channelCount, fs,
            fs + (f.frames.length : ℚ) / (f.sampleRate : ℚ)⟩,
            List.mem_append_right _ (List.mem_singleton.2 rfl), h1, h2, h3⟩
    · rename_i c₀ hfound
      split at hok
      · rename_i hfmt
        cases hok
        have hc₀name : c₀.name = coll := by
          have := List.find?_some hfound
          simpa using this
        have hupdname : ∀ y : Collection,
            (if y.name = coll then
              { y with startTime := min y.startTime fs
                       endTime := max y.endTime
                         (fs + (f.frames.length : ℚ) / (f.sampleRate : ℚ)) }
             else y).name = y.name := by
          intro y
          by_cases h : y.name = coll
          · rw [if_pos h]
          · rw [if_neg h]
        constructor
        · rw [List.map_map]
          have : st.registry.map
              ((fun c : Collection => c.name) ∘ fun y =>
                if y.name = coll then
                  { y with startTime := min y.startTime fs
                           endTime := max y.endTime
                             (fs + (f.frames.length : ℚ) / (f.sampleRate : ℚ)) }
                else y) = st.registry.map (fun c => c.name) := by
            apply List.map_congr_left
            intro a _
            exact hupdname a
          rw [this]
          exact hinv.1
        · intro x hx
          rcases mem_foldl_writeFrame _ _ _ hx with hold | hnew
          · obtain ⟨c, hc, h1, h2, h3⟩ := hinv.2 x hold
            refine ⟨_, List.mem_map_of_mem _ hc, ?_, ?_, ?_⟩
            · rw [hupdname c]
              exact h1
            · by_cases h : c.name = coll
              · rw [if_pos h]
                exact le_trans (min_le_left _ _) h2
              · rw [if_neg h]
                exact h2
            · by_cases h : c.name = coll
              · rw [if_pos h]
                exact le_trans h3 (le_max_left _ _)
              · rw [if_neg h]
                exact h3
          · obtain ⟨h1, h2, h3⟩ := fileSamples_time_bounds hrate hnew
            refine ⟨_, List.mem_map_of_mem _
              (List.mem_of_find?_eq_some hfound), ?_, ?_, ?_⟩
            · rw [hupdname c₀, hc₀name]
              exact h1
            · rw [if_pos hc₀name]
              exact le_trans (min_le_right _ _) h2
            · rw [if_pos hc₀name]
              exact le_trans h3 (le_max_right _ _)
      · cases hok

/-- Every state reachable by a sequence of ingestions from the empty state
satisfies the reachability invariant. -/
theorem runIngests_engineInv (rs : List IngestReq) :
    engineInv (runIngests rs) := by
  suffices h : ∀ st, engineInv st → engineInv (rs.foldl ingestStep st) by
    refine h emptyState ⟨by simp [emptyState], ?_⟩
    intro x hx
    simp [emptyState] at hx
  induction rs with
  | nil => exact fun st h => h
  | cons r t ih =>
      intro st h
      rw [List.foldl_cons]
      apply ih
      rw [ingestStep]
      cases hcase : ingestFile st r.coll r.fileStart r.file with
      | ok st1 => exact ingestFile_preserves_engineInv hcase h
      | error e => exact h

/-- C5: after any sequence of ingestions from the empty state, every sample
stored under a registered collection has a timestamp within that
collection's registered [start, end] range (the model computes frame
timestamps as start + frame_index / sample_rate, creates a collection with
the first file's [start, start + duration], and extends the range to the
union on later ingests). -/
theorem C5_samples_within_registered_range (rs : List IngestReq)
    (c : Collection) (hc : c ∈ (runIngests rs).registry)
    (x : Sample) (hx : x ∈ (runIngests rs).samples) (hname : x.coll = c.name) :
    c.startTime ≤ x.time ∧ x.time ≤ c.endTime := by
  obtain ⟨hnd, hcov⟩ := runIngests_engineInv rs
  obtain ⟨c', hc', hname', hlo, hhi⟩ := hcov x hx
  have hcc : c = c' :=
    List.inj_on_of_nodup_map hnd hc hc' (by rw [← hname, hname'])
  rw [hcc]
  exact ⟨hlo, hhi⟩

/-- A well-formed one-frame mono file at 1 Hz. -/
def oneFrameFile : WavFile := ⟨"one.wav", 1, 1, 16, [[7]]⟩

/-- C5 witness: ingesting the one-frame file into "demo" from t = 0
registers the range [0, 0 + 1/1] and the single frame's timestamp
0 + 0/1 lies within it. -/
theorem C5_witness :
    (⟨"demo", 1, 1, 0, 0 + ((1 : Nat) : ℚ) / ((1 : Nat) : ℚ)⟩ :
        Collection).startTime ≤
      (⟨"demo", 0 + ((0 : Nat) : ℚ) / ((1 : Nat) : ℚ), [7]⟩ : Sample).time ∧
    (⟨"demo", 0 + ((0 : Nat) : ℚ) / ((1 : Nat) : ℚ), [7]⟩ : Sample).time ≤
      (⟨"demo", 1, 1, 0, 0 + ((1 : Nat) : ℚ) / ((1 : Nat) : ℚ)⟩ :
        Collection).endTime :=
  C5_samples_within_registered_range [⟨"demo", 0, oneFrameFile⟩]
    ⟨"demo", 1, 1, 0, 0 + ((1 : Nat) : ℚ) / ((1 : Nat) : ℚ)⟩
    (by exact List.Mem.head _)
    ⟨"demo", 0 + ((0 : Nat) : ℚ) / ((1 : Nat) : ℚ), [7]⟩
    (by exact List.Mem.head _) rfl

/-! ## C6 — re-ingestion: no duplicate keys, last write wins -/

/-- After a successful ingestion, the registry resolves the target collection
to an entry whose sample rate and channel count match the ingested file's. -/
theorem findColl_after_ingest {st st' : EngineState} {coll : String}
    {fs : ℚ} {f : WavFile} (hok : ingestFile st coll fs f = .ok st') :
    ∃ c, findColl st' coll = some c ∧
      c.sampleRate = f.sampleRate ∧ c.channelCount = f.channelCount := by
  rw [ingestFile] at hok
  split at hok
  · cases hok
  · split at hok
    · rename_i hnone
      cases hok
      refine ⟨⟨coll, f.sampleRate, f.channelCount, fs,
        fs + (f.frames.length : ℚ) / (f.sampleRate : ℚ)⟩, ?_, rfl, rfl⟩
      rw [findColl] at hnone ⊢
      simp [List.find?_append, hnone]
    · rename_i c₀ hsome
      split at hok
      · rename_i hfmt
        cases hok
        have hc₀name : c₀.name = coll := by
          rw [findColl] at hsome
          have := List.find?_some hsome
          simpa using this
        refine ⟨if c₀.name = coll then { c₀ with startTime := min c₀.startTime fs, endTime := max c₀.endTime (fs + (f.frames.length : ℚ) / (f.sampleRate : ℚ)) } else c₀, ?_, ?_, ?_⟩
        · rw [findColl]
          rw [find?_map_of_pred_eq _ _ ?hp]
          case hp =>
            intro x
            by_cases h : x.name = coll
            · rw [if_pos h]
            · rw [if_neg h]
          rw [findColl] at hsome
          rw [hsome]
          rfl
        · rw [if_pos hc₀name]
          exact hfmt.1.symm
        · rw [if_pos hc₀name]
          exact hfmt.2.symm
      · cases hok

/-- Re-ingesting a file that previously ingested successfully succeeds
again: the format check compares against the registry entry the first
ingestion created or matched, which carries the same rate and channels. -/
theorem ingestFile_reingest {st st' : EngineState} {coll : String}
    {fs : ℚ} {f : WavFile} (h1 : ingestFile st coll fs f = .ok st') :
    ∃ st'', ingestFile st' coll fs f = .ok st'' := by
  have hhdr : headerOk f = true := by
    by_contra hcon
    rw [ingestFile, if_pos (by simpa using hcon)] at h1
    cases h1
  obtain ⟨c, hc, hr, hch⟩ := findColl_after_ingest h1
  refine ⟨{ st' with registry := st'.registry.map fun x => if x.name = coll then { x with startTime := min x.startTime fs, endTime := max x.endTime (fs + (f.frames.length : ℚ) / (f.sampleRate : ℚ)) } else x, samples := (fileSamples coll fs f.sampleRate 0 f.frames).foldl writeFrame st'.samples }, ?_⟩
  rw [ingestFile, if_neg (by simp [hhdr]), hc]
  simp [hr, hch]

/-- C6: starting from a store with unique (collection, timestamp) keys, a
successful ingestion keeps keys unique, and re-ingesting the exact same
file succeeds (the documented last-write-wins policy) and still leaves no
two samples with the same key — re-ingestion never duplicates samples at an
already-populated timestamp. -/
theorem C6_reingest_no_duplicates {st st' : EngineState} {coll : String}
    {fs : ℚ} {f : WavFile} (hnd : keysNodup st.samples)
    (h1 : ingestFile st coll fs f = .ok st') :
    keysNodup st'.samples ∧
    ∃ st'', ingestFile st' coll fs f = .ok st'' ∧ keysNodup st''.samples := by
  have hsamp : ∀ {s s' : EngineState}, ingestFile s coll fs f = .ok s' →
      keysNodup s.samples → keysNodup s'.samples := by
    intro s s' hok hk
    rw [ingestFile] at hok
    split at hok
    · cases hok
    · split at hok
      · cases hok
        exact keysNodup_foldl_writeFrame _ _ hk
      · split at hok
        · cases hok
          exact keysNodup_foldl_writeFrame _ _ hk
        · cases hok
  have h2 : keysNodup st'.samples := hsamp h1 hnd
  obtain ⟨st'', h3⟩ := ingestFile_reingest h1
  exact ⟨h2, st'', h3, hsamp h3 h2⟩

/-- C6 witness: ingesting the one-frame file twice into "demo" — the first
ingest succeeds from the empty state, the second succeeds again, and both
resulting stores have unique keys. -/
theorem C6_witness :
    keysNodup (ingestStep emptyState ⟨"demo", 0, oneFrameFile⟩).samples ∧
    ∃ st'', ingestFile (ingestStep emptyState ⟨"demo", 0, oneFrameFile⟩)
        "demo" 0 oneFrameFile = .ok st'' ∧ keysNodup st''.samples :=
  @C6_reingest_no_duplicates emptyState
    (ingestStep emptyState ⟨"demo", 0, oneFrameFile⟩) "demo" 0 oneFrameFile
    List.Pairwise.nil rfl

/-! ## C7 — multi-file batch: committed prefix kept, failing file isolated -/

/-- C7: if a batch ingestion fails at file `i`, the resulting state is
exactly the state reached by committing the first `i` files (so files
already fully committed are not rolled back), the failing file's ingestion
returned an error and therefore contributed no frames to the visible state
(all-or-nothing per file), and the failure report identifies the failing
file by position and filename. -/
theorem C7_batch_partial_failure (coll : String) :
    ∀ (files : List (ℚ × WavFile)) (st stF : EngineState) (i : Nat)
      (name : String) (err : EngineError),
      ingestBatch coll st files = (stF, .failed i name err) →
      ingestBatch coll st (files.take i) = (stF, .allOk) ∧
      ∃ fs f, files[i]? = some (fs, f) ∧
        ingestFile stF coll fs f = .error err ∧ name = f.filename := by
  intro files
  induction files with
  | nil =>
      intro st stF i name err h
      rw [ingestBatch] at h
      rw [Prod.mk.injEq] at h
      cases h.2
  | cons p rest ih =>
      intro st stF i name err h
      obtain ⟨fs0, f0⟩ := p
      rw [ingestBatch] at h
      split at h
      · rename_i st1 hfirst
        split at h
        · rename_i st2 hrest
          rw [Prod.mk.injEq] at h
          cases h.2
        · rename_i st2 i' n' e' hrest
          rw [Prod.mk.injEq] at h
          obtain ⟨hst, hres⟩ := h
          injection hres with hi hn he
          subst hst
          subst hi
          subst hn
          subst he
          obtain ⟨htake, fs, f, hget, herr, hname⟩ :=
            ih st1 st2 i' n' e' hrest
          refine ⟨?_, fs, f, ?_, herr, hname⟩
          · rw [List.take_succ_cons, ingestBatch, hfirst]
            simp only [htake]
          · simpa using hget
      · rename_i e0 hfirst
        rw [Prod.mk.injEq] at h
        obtain ⟨hst, hres⟩ := h
        injection hres with hi hn he
        subst hst
        subst hi
        subst hn
        subst he
        exact ⟨rfl, fs0, f0, by simp, hfirst, rfl⟩

/-- A malformed file: zero sample rate (§4.1 step 1 → `MalformedAudio`). -/
def badFile : WavFile := ⟨"bad.wav", 0, 1, 16, [[1]]⟩

/-- The two-file batch used by the C7 witness: a good file then a malformed
one. -/
def batchFiles : List (ℚ × WavFile) := [(0, oneFrameFile), (2, badFile)]

/-- C7 witness: the batch fails on its second file "bad.wav"; the state
after the batch equals the state after committing the first file alone and
the failing file's ingestion is the reported `MalformedAudio` error. -/
theorem C7_witness :
    ingestBatch "demo" emptyState (batchFiles.take 1)
        = ((ingestBatch "demo" emptyState batchFiles).1, .allOk) ∧
    ∃ fs f, batchFiles[1]? = some (fs, f) ∧
      ingestFile (ingestBatch "demo" emptyState batchFiles).1 "demo" fs f
          = .error .MalformedAudio ∧
      "bad.wav" = f.filename :=
  C7_batch_partial_failure "demo" batchFiles emptyState
    (ingestBatch "demo" emptyState batchFiles).1 1 "bad.wav"
    .MalformedAudio rfl

/-! ## C9 — every submitted payload has start ≤ end -/

/-- Weakening the panel invariant along a non-decreasing clock. -/
theorem panelInv_mono {c c' : Int} (h : c ≤ c') {st : PanelState}
    (hinv : panelInv c st) : panelInv c' st := by
  refine ⟨?_, hinv.2⟩
  intro hw
  obtain ⟨s, hs, hsc⟩ := hinv.1 hw
  exact ⟨s, hs, le_trans hsc h⟩

/-- The invariant holds while capturing whenever the recorded start is no
later than the clock. -/
theorem panelInv_capturing (c s : Int) (hs : s ≤ c) (e : Option Int) :
    panelInv c ⟨.CAPTURING, some s, e⟩ := by
  constructor
  · intro _
    exact ⟨s, rfl, hs⟩
  · intro h
    simp at h

/-- The invariant holds while annotating whenever the recorded endpoints are
ordered. -/
theorem panelInv_annotating (c s e : Int) (hse : s ≤ e) :
    panelInv c ⟨.ANNOTATING, some s, some e⟩ := by
  constructor
  · intro h
    simp at h
  · intro _
    exact ⟨s, e, rfl, rfl, hse⟩

/-- The initial panel state satisfies the invariant at any clock value. -/
theorem panelInv_init (c : Int) : panelInv c panelInit := by
  constructor
  · intro h
    simp [panelInit] at h
  · intro h
    simp [panelInit] at h

/-- Every payload emitted by a panel run under a non-decreasing wall clock
has ordered endpoints. -/
theorem panelRun_ordered :
    ∀ (acts : List PanelAction) (st : PanelState) (c : Int),
      panelInv c st → timesMonotone c acts →
      ∀ p ∈ (panelRun st acts).2, p.startTime ≤ p.endTime := by
  intro acts
  induction acts with
  | nil =>
      intro st c _ _ p hp
      simp [panelRun] at hp
  | cons a rest ih =>
      intro st c hinv hmono p hp
      obtain ⟨wf, stt, ent⟩ := st
      rw [panelRun] at hp
      cases a with
      | markStart t =>
          obtain ⟨hct, hm'⟩ := hmono
          cases wf with
          | READY =>
              simp only [panelStep, Option.toList_none, List.nil_append] at hp
              exact ih _ t (panelInv_capturing t t le_rfl ent) hm' p hp
          | CAPTURING =>
              simp only [panelStep, Option.toList_none, List.nil_append] at hp
              exact ih _ t (panelInv_mono hct hinv) hm' p hp
          | ANNOTATING =>
              simp only [panelStep, Option.toList_none, List.nil_append] at hp
              exact ih _ t (panelInv_mono hct hinv) hm' p hp
      | markEnd t =>
          obtain ⟨hct, hm'⟩ := hmono
          cases wf with
          | READY =>
              simp only [panelStep, Option.toList_none, List.nil_append] at hp
              exact ih _ t (panelInv_mono hct hinv) hm' p hp
          | CAPTURING =>
              obtain ⟨s, hs, hsc⟩ := hinv.1 rfl
              simp only at hs
              subst hs
              simp only [panelStep, Option.toList_none, List.nil_append] at hp
              exact ih _ t (panelInv_annotating t s t (le_trans hsc hct))
                hm' p hp
          | ANNOTATING =>
              simp only [panelStep, Option.toList_none, List.nil_append] at hp
              exact ih _ t (panelInv_mono hct hinv) hm' p hp
      | cancel =>
          have hm' : timesMonotone c rest := hmono
          simp only [panelStep, Option.toList_none, List.nil_append] at hp
          exact ih _ c (panelInv_init c) hm' p hp
      | save vt =>
          have hm' : timesMonotone c rest := hmono
          cases wf with
          | READY =>
              simp only [panelStep, Option.toList_none, List.nil_append] at hp
              exact ih _ c hinv hm' p hp
          | CAPTURING =>
              simp only [panelStep, Option.toList_none, List.nil_append] at hp
              exact ih _ c hinv hm' p hp
          | ANNOTATING =>
              obtain ⟨s, e, hs, he, hse⟩ := hinv.2 rfl
              simp only at hs he
              subst hs
              subst he
              by_cases hv : vt = ""
              · simp only [panelStep, if_pos hv, Option.toList_none,
                  List.nil_append] at hp
                exact ih _ c hinv hm' p hp
              · simp only [panelStep, if_neg hv, Option.toList_some,
                  List.cons_append, List.nil_append] at hp
                rcases List.mem_cons.1 hp with hpe | hp'
                · rw [hpe]
                  exact hse
                · exact ih _ c (panelInv_init c) hm' p hp'

/-- C9: the annotation client never submits a payload whose end precedes its
start — the two-click chart selection swaps the endpoints whenever the
second click precedes the first (`handleChartClick`), and under a
non-decreasing wall clock every payload the live-capture panel posts
(start recorded at MARK START, end at the later MARK END) has
start ≤ end. -/
theorem C9_payload_endpoints_ordered :
    (∀ selStart clicked : Int,
      (chartClickFinalize selStart clicked).1 ≤
        (chartClickFinalize selStart clicked).2) ∧
    (∀ (acts : List PanelAction) (c : Int), timesMonotone c acts →
      ∀ p ∈ (panelRun panelInit acts).2, p.startTime ≤ p.endTime) := by
  constructor
  · intro s cl
    rw [chartClickFinalize]
    split
    · rename_i h
      exact le_of_lt h
    · rename_i h
      exact le_of_not_lt h
  · intro acts c hm
    exact panelRun_ordered acts panelInit c (panelInv_init c) hm

/-- The C9 witness's action sequence: capture from t = 10 to t = 20, then
save. -/
def demoActs : List PanelAction := [.markStart 10, .markEnd 20, .save "car"]

/-- C9 witness: a backwards second click at t = 30 after a first click at
t = 50 yields the swapped (30, 50) range, and the payload posted by the
10-to-20 capture run has ordered endpoints. -/
theorem C9_witness :
    (chartClickFinalize 50 30).1 ≤ (chartClickFinalize 50 30).2 ∧
    (⟨10, 20⟩ : CapturePayload).startTime ≤
      (⟨10, 20⟩ : CapturePayload).endTime :=
  ⟨C9_payload_endpoints_ordered.1 50 30,
   C9_payload_endpoints_ordered.2 demoActs 0
     (show timesMonotone 0 demoActs from
       show (0 : Int) ≤ 10 ∧ (10 : Int) ≤ 20 ∧ True by norm_num)
     ⟨10, 20⟩ (by decide)⟩

/-! ## C10 — time utilities round-trip -/

/-- The decimal renderer does not depend on the fuel, as long as there is
enough of it. -/
theorem natDigitsF_fuel_irrel :
    ∀ (f1 f2 n : Nat), n < f1 → n < f2 →
      natDigitsF f1 n = natDigitsF f2 n := by
  intro f1
  induction f1 with
  | zero =>
      intro f2 n h1 _
      omega
  | succ f1 ih =>
      intro f2 n h1 h2
      cases f2 with
      | zero => omega
      | succ f2 =>
          rw [natDigitsF, natDigitsF]
          by_cases h : n < 10
          · rw [if_pos h, if_pos h]
          · rw [if_neg h, if_neg h, ih f2 (n / 10) (by omega) (by omega)]

/-- One-digit rendering. -/
theorem natDigits_small {n : Nat} (h : n < 10) :
    natDigits n = [digitOf n] := by
  rw [natDigits, natDigitsF, if_pos h]

/-- Unfolding one digit of the renderer. -/
theorem natDigits_step {n : Nat} (h : 10 ≤ n) :
    natDigits n = natDigits (n / 10) ++ [digitOf n] := by
  rw [natDigits, natDigitsF, if_neg (by omega)]
  rw [natDigits]
  rw [natDigitsF_fuel_irrel n (n / 10 + 1) (n / 10) (by omega) (by omega)]

/-- Two-character zero-padded rendering of a value below 100. -/
theorem pad2_eq {n : Nat} (h : n < 100) :
    pad2 n = [digitOf (n / 10), digitOf n] := by
  rw [pad2]
  by_cases h10 : n < 10
  · rw [if_pos h10, natDigits_small h10]
    have h0 : n / 10 = 0 := by omega
    rw [h0]
  · rw [if_neg h10, natDigits_step (by omega),
      natDigits_small (by omega : n / 10 < 10)]
    rfl

/-- Four-character rendering of a four-digit value. -/
theorem natDigits_four {n : Nat} (h1 : 1000 ≤ n) (h2 : n ≤ 9999) :
    natDigits n = [digitOf (n / 1000), digitOf (n / 100),
      digitOf (n / 10), digitOf n] := by
  have e1 : n / 10 / 10 = n / 100 := by omega
  have e2 : n / 100 / 10 = n / 1000 := by omega
  rw [natDigits_step (by omega : 10 ≤ n),
    natDigits_step (by omega : 10 ≤ n / 10), e1,
    natDigits_step (by omega : 10 ≤ n / 100), e2,
    natDigits_small (by omega : n / 1000 < 10)]
  simp

/-- Months never exceed 31 days. -/
theorem daysInMonth_le (y m : Nat) : daysInMonth y m ≤ 31 := by
  rw [daysInMonth]
  split
  · split <;> omega
  · split <;> omega

/-- The value of an explicitly constructed digit. -/
theorem digit_val (m : Nat) (h : m < 10) : (⟨m, h⟩ : Fin 10).val = m := rfl

/-- A twenty-character `YYYY-MM-DDTHH:mm:ssZ` string parses to the
reassembled component values (definitional unfolding of the parser). -/
theorem parseISOChars_digits (y1 y2 y3 y4 m1 m2 d1 d2 h1 h2 i1 i2 s1 s2 :
    Fin 10) :
    parseISOChars [.digit y1, .digit y2, .digit y3, .digit y4, .dash,
      .digit m1, .digit m2, .dash, .digit d1, .digit d2, .tsep,
      .digit h1, .digit h2, .colon, .digit i1, .digit i2, .colon,
      .digit s1, .digit s2, .zmark] =
    if validDate ⟨1000 * y1.val + 100 * y2.val + 10 * y3.val + y4.val,
        10 * m1.val + m2.val, 10 * d1.val + d2.val, 10 * h1.val + h2.val,
        10 * i1.val + i2.val, 10 * s1.val + s2.val, 0⟩ then
      some ⟨1000 * y1.val + 100 * y2.val + 10 * y3.val + y4.val,
        10 * m1.val + m2.val, 10 * d1.val + d2.val, 10 * h1.val + h2.val,
        10 * i1.val + i2.val, 10 * s1.val + s2.val, 0⟩
    else none := rfl

/-- C10 (amended): `formatForInput` depends only on the UTC components of
its argument, never on the browser timezone offset; `parseISOString`
returns null on a null/undefined input and on an unparsable string; and for
every valid whole-second Date whose UTC year renders as exactly four digits
(1000–9999), `parseISOString(formatForInput(d) + "Z")` returns a Date equal
to `d`. -/
theorem C10_time_roundtrip (tz tz' : Int) (d : JSDate) :
    formatForInput tz (some d) = formatForInput tz' (some d) ∧
    parseISOString none = none ∧
    parseISOString (some [ISOChar.dash]) = none ∧
    (validDate d = true → d.ms = 0 → 1000 ≤ d.year → d.year ≤ 9999 →
      parseISOString (some (formatForInput tz (some d) ++ [ISOChar.zmark]))
        = some d) := by
  refine ⟨rfl, rfl, rfl, ?_⟩
  obtain ⟨Y, Mo, Da, H, Mi, S, MS⟩ := d
  intro hv hms hy1 hy2
  simp only at hms hy1 hy2
  subst hms
  have hb := hv
  simp only [validDate, decide_eq_true_eq] at hb
  obtain ⟨hb1, hb2, hb3, hb4, hb5, hb6, hb7, hb8, hb9⟩ := hb
  have hDa31 : Da ≤ 31 := le_trans hb5 (daysInMonth_le Y Mo)
  rw [parseISOString, formatForInput]
  rw [natDigits_four hy1 hy2, pad2_eq (by omega : Mo < 100),
    pad2_eq (by omega : Da < 100), pad2_eq (by omega : H < 100),
    pad2_eq (by omega : Mi < 100), pad2_eq (by omega : S < 100)]
  simp only [List.cons_append, List.nil_append, List.append_nil]
  simp only [digitOf]
  rw [parseISOChars_digits]
  simp only [digit_val]
  have hY : 1000 * (Y / 1000 % 10) + 100 * (Y / 100 % 10) +
      10 * (Y / 10 % 10) + Y % 10 = Y := by omega
  have hMo : 10 * (Mo / 10 % 10) + Mo % 10 = Mo := by omega
  have hDa : 10 * (Da / 10 % 10) + Da % 10 = Da := by omega
  have hH : 10 * (H / 10 % 10) + H % 10 = H := by omega
  have hMi : 10 * (Mi / 10 % 10) + Mi % 10 = Mi := by omega
  have hS : 10 * (S / 10 % 10) + S % 10 = S := by omega
  rw [hY, hMo, hDa, hH, hMi, hS, if_pos hv]

/-- The valid whole-second date 2025-06-23T14:00:00 UTC (the example in the
source's doc comment). -/
def d2025 : JSDate := ⟨2025, 6, 23, 14, 0, 0, 0⟩

/-- C10 witness: 2025-06-23T14:00:00 formats and re-parses to itself. -/
theorem C10_witness :
    parseISOString (some (formatForInput 0 (some d2025) ++ [ISOChar.zmark]))
      = some d2025 :=
  (C10_time_roundtrip 0 0 d2025).2.2.2 (by decide) rfl (by decide) (by decide)

/-- The valid whole-second date 0567-01-01T00:00:00 UTC. -/
def d567 : JSDate := ⟨567, 1, 1, 0, 0, 0, 0⟩

/-- C10 counterexample to the claim as stated: the year-567 date is a valid
whole-second Date, but `formatForInput` renders its year with three digits
("567-01-01T00:00:00", contradicting the function's own documented
`YYYY-MM-DD` shape), and the resulting string with "Z" appended falls
outside the ECMA-262 Date Time String Format (which requires exactly four
year digits), so its parse is not the original date — the round-trip fails
for valid Dates whose year is below 1000 (or above 9999). -/
theorem C10_counterexample :
    validDate d567 = true ∧ d567.ms = 0 ∧
    parseISOString (some (formatForInput 0 (some d567) ++ [ISOChar.zmark]))
      = none :=
  ⟨by decide, rfl, by decide⟩

end Annotator
